import Mathlib

/-!
Shallow embedding of the proto-to-Go converter (`src/main.py`).

The core of the program is `parse_proto_and_generate_go`: a line-oriented
scanner that recognizes `message` / `enum` / `service` blocks via regular
expressions, emits Go source lines into a body buffer, accumulates an import
set, and finally assembles a package header, a sorted import block and the
body.  Strings are modelled as `List Char` / `String` with ASCII semantics of
the Python primitives involved (`str.strip`, `str.split`, `str.title`,
`str.upper`, `str.replace`, and the `re` patterns, all of which only use
ASCII character classes here).
-/

namespace QuickProto

/-! ### Python character primitives (ASCII plane) -/

/-- Python `str.upper` on one ASCII character. -/
def upChar (c : Char) : Char :=
  if 97 ≤ c.toNat ∧ c.toNat ≤ 122 then Char.ofNat (c.toNat - 32) else c

/-- Python `str.lower` on one ASCII character. -/
def lowChar (c : Char) : Char :=
  if 65 ≤ c.toNat ∧ c.toNat ≤ 90 then Char.ofNat (c.toNat + 32) else c

/-- Python `str.isalpha` for ASCII letters; `str.title` treats maximal runs
of letters as words. -/
def alphaChar (c : Char) : Bool :=
  decide ((65 ≤ c.toNat ∧ c.toNat ≤ 90) ∨ (97 ≤ c.toNat ∧ c.toNat ≤ 122))

/-- Python regex `\s` (ASCII). -/
def wsChar (c : Char) : Bool :=
  c = ' ' || c = '\t' || c = '\n' || c = '\r' || c = '\x0b' || c = '\x0c'

/-- Python regex `\d`. -/
def digitChar (c : Char) : Bool :=
  decide (48 ≤ c.toNat ∧ c.toNat ≤ 57)

/-- Python regex `\w` (ASCII). -/
def wordChar (c : Char) : Bool :=
  alphaChar c || digitChar c || c = '_'

/-- The character class `[\w\.]` of `field_regex`. -/
def dotWordChar (c : Char) : Bool :=
  wordChar c || c = '.'

/-- Python `str.strip()` (whitespace from both ends). -/
def stripList (l : List Char) : List Char :=
  ((l.dropWhile wsChar).reverse.dropWhile wsChar).reverse

/-- Python `str.strip()` on a `String`. -/
def pyStrip (s : String) : String :=
  String.mk (stripList s.data)

/-! ### Identifier converter (`to_camel_case`, main.py lines 57-59) -/

/-- One pass of Python `str.title`: `p` records whether the previous
character was a letter (words are maximal runs of letters). -/
def titleAux (p : Bool) : List Char → List Char
  | [] => []
  | c :: cs =>
    (if alphaChar c then (if p then lowChar c else upChar c) else c) :: titleAux (alphaChar c) cs

/-- Python `str.title` on a character list. -/
def pyTitle (l : List Char) : List Char :=
  titleAux false l

/-- Python `str.split('_')`. -/
def splitOnUnderscore : List Char → List (List Char)
  | [] => [[]]
  | c :: cs =>
    if c = '_' then [] :: splitOnUnderscore cs
    else
      match splitOnUnderscore cs with
      | [] => [[c]]
      | h :: t => (c :: h) :: t

/-- `to_camel_case` from main.py: split on `_`, title-case each component,
concatenate. -/
def to_camel_case (s : String) : String :=
  String.mk (((splitOnUnderscore s.data).map pyTitle).flatten)

/-- The suffix `"Id"` checked on the converted field name. -/
def idSuffix : List Char := "Id".data

/-- The caller-side rule at main.py lines 216-218 on a character list:
camel-case conversion, then replacement of a trailing `"Id"` by `"ID"`
(`go_field_name[:-2] + "ID"`). -/
def goNameList (l : List Char) : List Char :=
  let t := ((splitOnUnderscore l).map pyTitle).flatten
  if List.isSuffixOf idSuffix t then t.take (t.length - 2) ++ ("ID".data) else t

/-- The caller-side rule at main.py lines 216-218: convert to camel case and
replace a trailing `"Id"` by `"ID"`. -/
def goFieldNameOf (nm : String) : String :=
  String.mk (goNameList nm.data)

/-! ### Type mapper (`map_type`, main.py lines 61-82) -/

/-- The fixed lookup table of `map_type`. -/
def type_mapping : List (String × String) :=
  [("double", "float64"),
   ("float", "float32"),
   ("int32", "int32"),
   ("int64", "int64"),
   ("uint32", "uint32"),
   ("uint64", "uint64"),
   ("sint32", "int32"),
   ("sint64", "int64"),
   ("fixed32", "uint32"),
   ("fixed64", "uint64"),
   ("sfixed32", "int32"),
   ("sfixed64", "int64"),
   ("bool", "bool"),
   ("string", "string"),
   ("bytes", "[]byte"),
   ("google.protobuf.Timestamp", "time.Time"),
   ("Timestamp", "time.Time")]

/-- `map_type`: dictionary lookup with the key itself as default. -/
def map_type (t : String) : String :=
  match List.lookup t type_mapping with
  | some v => v
  | none => t

/-! ### Line splitting (main.py lines 138-148) -/

/-- Does the stripped line start with `//`? -/
def twoSlashes : List Char → Bool
  | '/' :: '/' :: _ => true
  | _ => false

/-- Python `raw_line.split('//', 1)`: the part before the first `//` and,
when present, the part after it. -/
def commentSplit : List Char → List Char × Option (List Char)
  | [] => ([], none)
  | '/' :: '/' :: rest => ([], some rest)
  | c :: cs =>
    match commentSplit cs with
    | (a, b) => (c :: a, b)

/-- `raw_line` of a source line: the stripped line. -/
def rawLineOf (line : String) : String :=
  pyStrip line

/-- Lines skipped at main.py lines 140-141: blank or comment-only. -/
def skipsLine (line : String) : Bool :=
  rawLineOf line = "" || twoSlashes (rawLineOf line).data

/-- `code_part` of a line (main.py lines 143-144). -/
def codePartOf (line : String) : List Char :=
  stripList (commentSplit (rawLineOf line).data).1

/-- `comment_part` of a line (main.py line 145). -/
def commentPartOf (line : String) : List Char :=
  match (commentSplit (rawLineOf line).data).2 with
  | some c => stripList c
  | none => []

/-! ### Regex matchers

Each of the six regexes of main.py is embedded as a match-at-position
function plus `regexSearch`, which mirrors `re.search` by trying every start
position from the left.  In every pattern each quantifier ranges over a
character class disjoint from the character that must follow it, so greedy
maximal munch is exact; the only backtracking point is the optional group
`(repeated)?`, which is tried present-first exactly as the `re` engine
does. -/

/-- Match a literal at the head, returning the rest. -/
def dropLit : List Char → List Char → Option (List Char)
  | [], l => some l
  | _ :: _, [] => none
  | k :: ks, c :: cs => if c = k then dropLit ks cs else none

/-- `re.search`: try the matcher at each start position, leftmost first. -/
def regexSearch {α : Type} (m : List Char → Option α) : List Char → Option α
  | [] => m []
  | c :: cs =>
    match m (c :: cs) with
    | some r => some r
    | none => regexSearch m cs

/-- Matcher for `<kw>\s+(\w+)\s*\{` at the current position (the shape of
`message_regex`, `enum_regex` and `service_regex`). -/
def blockMatchAt (kw : List Char) (l : List Char) : Option String :=
  match dropLit kw l with
  | none => none
  | some r1 =>
    let ws := r1.takeWhile wsChar
    let r2 := r1.dropWhile wsChar
    if ws.isEmpty then none
    else
      let nm := r2.takeWhile wordChar
      let r3 := r2.dropWhile wordChar
      if nm.isEmpty then none
      else
        match r3.dropWhile wsChar with
        | '\x7b' :: _ => some (String.mk nm)
        | _ => none

def kwMessage : List Char := "message".data

def kwEnum : List Char := "enum".data

def kwService : List Char := "service".data

def kwRepeated : List Char := "repeated".data

def kwRpc : List Char := "rpc".data

def kwReturns : List Char := "returns".data

/-- The part `\s*([\w\.]+)\s+(\w+)\s*=\s*\d+;` of `field_regex` after the
optional `repeated` group. -/
def fieldTailAt (r : List Char) : Option (String × String) :=
  let r2 := r.dropWhile wsChar
  let ty := r2.takeWhile dotWordChar
  let r3 := r2.dropWhile dotWordChar
  if ty.isEmpty then none
  else
    let ws := r3.takeWhile wsChar
    let r4 := r3.dropWhile wsChar
    if ws.isEmpty then none
    else
      let nm := r4.takeWhile wordChar
      let r5 := r4.dropWhile wordChar
      if nm.isEmpty then none
      else
        match r5.dropWhile wsChar with
        | '=' :: r6 =>
          let r7 := r6.dropWhile wsChar
          let ds := r7.takeWhile digitChar
          let r8 := r7.dropWhile digitChar
          if ds.isEmpty then none
          else
            match r8 with
            | ';' :: _ => some (String.mk ty, String.mk nm)
            | _ => none
        | _ => none

/-- `field_regex = r'\s*(repeated)?\s*([\w\.]+)\s+(\w+)\s*=\s*\d+;'` at the
current position; the Bool records whether group 1 matched. -/
def fieldMatchAt (l : List Char) : Option (Bool × String × String) :=
  let r1 := l.dropWhile wsChar
  match dropLit kwRepeated r1 with
  | some r2 =>
    match fieldTailAt r2 with
    | some p => some (true, p.1, p.2)
    | none => (fieldTailAt r1).map (fun p => (false, p.1, p.2))
  | none => (fieldTailAt r1).map (fun p => (false, p.1, p.2))

/-- `enum_field_regex = r'\s*(\w+)\s*=\s*\d+;'` at the current position. -/
def enumFieldMatchAt (l : List Char) : Option String :=
  let r1 := l.dropWhile wsChar
  let nm := r1.takeWhile wordChar
  let r2 := r1.dropWhile wordChar
  if nm.isEmpty then none
  else
    match r2.dropWhile wsChar with
    | '=' :: r3 =>
      let r4 := r3.dropWhile wsChar
      let ds := r4.takeWhile digitChar
      let r5 := r4.dropWhile digitChar
      if ds.isEmpty then none
      else
        match r5 with
        | ';' :: _ => some (String.mk nm)
        | _ => none
    | _ => none

/-- `rpc_regex = r'\s*rpc\s+(\w+)\s*\(([^)]+)\)\s*returns\s*\(([^)]+)\)'`
at the current position. -/
def rpcMatchAt (l : List Char) : Option (String × String × String) :=
  let r0 := l.dropWhile wsChar
  match dropLit kwRpc r0 with
  | none => none
  | some r1 =>
    let ws := r1.takeWhile wsChar
    let r2 := r1.dropWhile wsChar
    if ws.isEmpty then none
    else
      let nm := r2.takeWhile wordChar
      let r3 := r2.dropWhile wordChar
      if nm.isEmpty then none
      else
        match r3.dropWhile wsChar with
        | '(' :: r4 =>
          let req := r4.takeWhile (fun c => c ≠ ')')
          let r5 := r4.dropWhile (fun c => c ≠ ')')
          if req.isEmpty then none
          else
            match r5 with
            | ')' :: r6 =>
              match dropLit kwReturns (r6.dropWhile wsChar) with
              | none => none
              | some r7 =>
                match r7.dropWhile wsChar with
                | '(' :: r8 =>
                  let resp := r8.takeWhile (fun c => c ≠ ')')
                  let r9 := r8.dropWhile (fun c => c ≠ ')')
                  if resp.isEmpty then none
                  else
                    match r9 with
                    | ')' :: _ => some (String.mk nm, String.mk req, String.mk resp)
                    | _ => none
                | _ => none
            | _ => none
        | _ => none

/-- Python `.replace("stream ", "")` used on the two RPC type captures. -/
def stripStream : List Char → List Char
  | 's' :: 't' :: 'r' :: 'e' :: 'a' :: 'm' :: ' ' :: rest => stripStream rest
  | c :: cs => c :: stripStream cs
  | [] => []

/-- `.replace("stream ", "")` on a `String`. -/
def strReplaceStream (s : String) : String :=
  String.mk (stripStream s.data)

/-- Python substring test `pat in l`. -/
def containsSub (pat : List Char) : List Char → Bool
  | [] => (dropLit pat []).isSome
  | c :: cs => (dropLit pat (c :: cs)).isSome || containsSub pat cs

/-- Does `"UUID" in comment_part.upper()` hold (main.py line 208)? -/
def containsUUID (cmt : List Char) : Bool :=
  containsSub ("UUID".data) (cmt.map upChar)

/-! ### Scanner state machine (main.py lines 118-246) -/

inductive Mode
  | NONE
  | MESSAGE
  | SERVICE
  | ENUM
deriving DecidableEq, Repr

structure ScanState where
  mode : Mode
  currentEnumName : String
  isFirstEnumField : Bool
  imports : List String
  bodyCode : List String
deriving DecidableEq, Repr

def importContext : String := "\"context\""

def importTime : String := "\"time\""

def importUuid : String := "\"github.com/google/uuid\""

/-- `imports.add(x)`: the Python `set` is modelled as a duplicate-free list
in insertion order; membership and the sorted enumeration used at assembly
time agree with the set semantics. -/
def addImport (l : List String) (x : String) : List String :=
  if x ∈ l then l else l ++ [x]

/-- Import additions of the field branch (main.py lines 201-211): the
time import if the mapped type is `time.Time`, then the uuid import on a
UUID comment hint. -/
def fieldImports (imps : List String) (protoType : String) (cmt : List Char) : List String :=
  let i1 := if map_type protoType = "time.Time" then addImport imps importTime else imps
  if containsUUID cmt then addImport i1 importUuid else i1

/-- The Go type emitted for a field (main.py lines 201-214): mapped type,
then the UUID-comment override, then the `repeated` slice wrapping. -/
def fieldGoType (isRepeated : Bool) (protoType : String) (cmt : List Char) : String :=
  let g1 := map_type protoType
  let g2 := if containsUUID cmt then "uuid.UUID" else g1
  if isRepeated then "[]" ++ g2 else g2

/-- The struct-field line emitted at main.py line 220. -/
def emitFieldLine (isRepeated : Bool) (protoType fieldName : String) (cmt : List Char) : String :=
  "\t" ++ goFieldNameOf fieldName ++ " " ++ fieldGoType isRepeated protoType cmt
    ++ " `json:\"" ++ fieldName ++ ",omitempty\"`"

/-- Lines emitted on a message opener (main.py lines 155-156). -/
def messageLines (n : String) : List String :=
  ["// " ++ n ++ " represents the " ++ n ++ " model from proto",
   "type " ++ n ++ " struct \x7b"]

/-- Lines emitted on an enum opener (main.py lines 165-167). -/
def enumLines (n : String) : List String :=
  ["// " ++ n ++ " is an enumeration based on byte",
   "type " ++ n ++ " byte",
   "const ("]

/-- Lines emitted on a service opener (main.py lines 177-178). -/
def serviceLines (n : String) : List String :=
  ["// " ++ n ++ " defines the interface for the REST client/server",
   "type " ++ n ++ " interface \x7b"]

/-- The interface-method line emitted at main.py line 245. -/
def rpcLineOf (m rq rs : String) : String :=
  "\t" ++ m ++ "(ctx context.Context, req *" ++ strReplaceStream rq
    ++ ") (*" ++ strReplaceStream rs ++ ", error)"

def closerList : List Char := ['\x7d']

/-- One iteration of the scanning loop on an already split line
(main.py lines 150-246). -/
def stepCode (st : ScanState) (cp cmt : List Char) : ScanState :=
  if cp = [] then st
  else
    match regexSearch (blockMatchAt kwMessage) cp with
    | some n => { st with mode := Mode.MESSAGE, bodyCode := st.bodyCode ++ messageLines n }
    | none =>
      match regexSearch (blockMatchAt kwEnum) cp with
      | some n =>
        { st with mode := Mode.ENUM, currentEnumName := n, isFirstEnumField := true,
                  bodyCode := st.bodyCode ++ enumLines n }
      | none =>
        match regexSearch (blockMatchAt kwService) cp with
        | some n => { st with mode := Mode.SERVICE, bodyCode := st.bodyCode ++ serviceLines n }
        | none =>
          if cp = closerList ∧ st.mode ≠ Mode.NONE then
            { st with mode := Mode.NONE,
                      bodyCode := st.bodyCode
                        ++ (if st.mode = Mode.ENUM then [")"] else ["\x7d"]) ++ [""] }
          else
            match st.mode with
            | Mode.MESSAGE =>
              match regexSearch fieldMatchAt cp with
              | some (rep, ty, nm) =>
                { st with imports := fieldImports st.imports ty cmt,
                          bodyCode := st.bodyCode ++ [emitFieldLine rep ty nm cmt] }
              | none => st
            | Mode.ENUM =>
              match regexSearch enumFieldMatchAt cp with
              | some nm =>
                if st.isFirstEnumField then
                  { st with isFirstEnumField := false,
                            bodyCode := st.bodyCode
                              ++ ["\t" ++ nm ++ " " ++ st.currentEnumName ++ " = iota"] }
                else { st with bodyCode := st.bodyCode ++ ["\t" ++ nm] }
              | none => st
            | Mode.SERVICE =>
              match regexSearch rpcMatchAt cp with
              | some r => { st with bodyCode := st.bodyCode ++ [rpcLineOf r.1 r.2.1 r.2.2] }
              | none => st
            | Mode.NONE => st

/-- One iteration of the scanning loop on a raw input line. -/
def stepLine (st : ScanState) (line : String) : ScanState :=
  if skipsLine line then st else stepCode st (codePartOf line) (commentPartOf line)

/-- The scanner state at the top of the loop: `imports = {"context"}`,
empty body, state `NONE` (main.py lines 118-123). -/
def initState : ScanState :=
  ⟨Mode.NONE, "", false, [importContext], []⟩

def scanFrom (st : ScanState) (lines : List String) : ScanState :=
  lines.foldl stepLine st

def scanLines (lines : List String) : ScanState :=
  scanFrom initState lines

/-! ### Code assembly (main.py lines 250-259) -/

/-- Python string `<`, i.e. code-point lexicographic order, as used by
`sorted`. -/
def lexLe : List Char → List Char → Bool
  | [], _ => true
  | _ :: _, [] => false
  | a :: as, b :: bs =>
    if a.toNat < b.toNat then true
    else if b.toNat < a.toNat then false
    else lexLe as bs

def strLe (a b : String) : Bool :=
  lexLe a.data b.data

def insertImp (x : String) : List String → List String
  | [] => [x]
  | y :: ys => if strLe x y then x :: y :: ys else y :: insertImp x ys

/-- Python `sorted` on the import set (insertion sort by `strLe`). -/
def sortImports : List String → List String
  | [] => []
  | x :: xs => insertImp x (sortImports xs)

/-- The generated import block: one tab-indented line per sorted import. -/
def importBlockOf (imps : List String) : List String :=
  (sortImports imps).map (fun i => "\t" ++ i)

/-- `parse_proto_and_generate_go` with the file already read into lines:
scan, then assemble header, import block and body (main.py lines 250-259). -/
def generateGo (lines : List String) (pkg : String) : String :=
  let st := scanLines lines
  let headerPart : List String := ["package " ++ pkg, ""]
  let importPart : List String :=
    if st.imports.isEmpty then []
    else ["import ("] ++ importBlockOf st.imports ++ [")", ""]
  String.intercalate "\n" (headerPart ++ importPart ++ st.bodyCode)

end QuickProto

namespace QuickProto

/-! ### Character-level lemmas -/

theorem char_toNat_ofNat (n : Nat) (h : n < 55296) : (Char.ofNat n).toNat = n := by
  rw [Char.ofNat, dif_pos (Or.inl h)]
  rfl

theorem alphaChar_upChar (c : Char) : alphaChar (upChar c) = alphaChar c := by
  unfold upChar
  by_cases h : 97 ≤ c.toNat ∧ c.toNat ≤ 122
  · rw [if_pos h]
    have ht : (Char.ofNat (c.toNat - 32)).toNat = c.toNat - 32 :=
      char_toNat_ofNat _ (by omega)
    unfold alphaChar
    rw [ht]
    exact decide_eq_decide.mpr (by omega)
  · rw [if_neg h]

theorem alphaChar_lowChar (c : Char) : alphaChar (lowChar c) = alphaChar c := by
  unfold lowChar
  by_cases h : 65 ≤ c.toNat ∧ c.toNat ≤ 90
  · rw [if_pos h]
    have ht : (Char.ofNat (c.toNat + 32)).toNat = c.toNat + 32 :=
      char_toNat_ofNat _ (by omega)
    unfold alphaChar
    rw [ht]
    exact decide_eq_decide.mpr (by omega)
  · rw [if_neg h]

theorem upChar_upChar (c : Char) : upChar (upChar c) = upChar c := by
  by_cases h : 97 ≤ c.toNat ∧ c.toNat ≤ 122
  · have h1 : upChar c = Char.ofNat (c.toNat - 32) := by unfold upChar; rw [if_pos h]
    have ht : (Char.ofNat (c.toNat - 32)).toNat = c.toNat - 32 :=
      char_toNat_ofNat _ (by omega)
    rw [h1]
    unfold upChar
    rw [ht, if_neg (by omega)]
  · have h1 : upChar c = c := by unfold upChar; rw [if_neg h]
    rw [h1, h1]

theorem lowChar_lowChar (c : Char) : lowChar (lowChar c) = lowChar c := by
  by_cases h : 65 ≤ c.toNat ∧ c.toNat ≤ 90
  · have h1 : lowChar c = Char.ofNat (c.toNat + 32) := by unfold lowChar; rw [if_pos h]
    have ht : (Char.ofNat (c.toNat + 32)).toNat = c.toNat + 32 :=
      char_toNat_ofNat _ (by omega)
    rw [h1]
    unfold lowChar
    rw [ht, if_neg (by omega)]
  · have h1 : lowChar c = c := by unfold lowChar; rw [if_neg h]
    rw [h1, h1]

/-! ### `str.title` lemmas -/

theorem titleAux_idem (l : List Char) : ∀ p, titleAux p (titleAux p l) = titleAux p l := by
  induction l with
  | nil => intro p; rfl
  | cons c cs ih =>
    intro p
    by_cases hc : alphaChar c = true
    · cases p
      · simp only [titleAux, hc, if_true, Bool.false_eq_true, if_false]
        rw [alphaChar_upChar, hc]
        simp only [if_true, Bool.false_eq_true, if_false]
        rw [upChar_upChar, ih]
      · simp only [titleAux, hc, if_true]
        rw [alphaChar_lowChar, hc]
        simp only [if_true]
        rw [lowChar_lowChar, ih]
    · have hc' : alphaChar c = false := by revert hc; cases alphaChar c <;> simp
      simp only [titleAux, hc', Bool.false_eq_true, if_false]
      rw [ih]

theorem titleAux_length (l : List Char) : ∀ p, (titleAux p l).length = l.length := by
  induction l with
  | nil => intro p; rfl
  | cons c cs ih => intro p; simp only [titleAux, List.length_cons, ih]

/-- The word flag after scanning `l` (whether the last character of `l` is a
letter, or `p` when `l` is empty). -/
def flagAfter (p : Bool) : List Char → Bool
  | [] => p
  | c :: cs => flagAfter (alphaChar c) cs

theorem titleAux_append (l1 l2 : List Char) :
    ∀ p, titleAux p (l1 ++ l2) = titleAux p l1 ++ titleAux (flagAfter p l1) l2 := by
  induction l1 with
  | nil => intro p; rfl
  | cons c cs ih =>
    intro p
    simp only [List.cons_append, titleAux, flagAfter, ih, List.cons.injEq, and_self,
      List.append_eq]

theorem underscore_not_titleAux (l : List Char) (h : '_' ∉ l) :
    ∀ p, '_' ∉ titleAux p l := by
  induction l with
  | nil => intro p hm; exact absurd hm (List.not_mem_nil _)
  | cons c cs ih =>
    intro p hm
    have hc : c ≠ '_' := fun e => h (e ▸ List.mem_cons_self c cs)
    simp only [titleAux] at hm
    rcases List.mem_cons.mp hm with h1 | h1
    · by_cases hca : alphaChar c = true
      · rw [if_pos hca] at h1
        have ha : alphaChar (if p then lowChar c else upChar c) = true := by
          cases p
          · simp only [Bool.false_eq_true, if_false]; rw [alphaChar_upChar]; exact hca
          · simp only [if_true]; rw [alphaChar_lowChar]; exact hca
        rw [← h1] at ha
        exact absurd ha (by decide)
      · rw [if_neg hca] at h1
        exact hc h1.symm
    · exact ih (fun hm2 => h (List.mem_cons_of_mem _ hm2)) _ h1

theorem splitOnUnderscore_eq (l : List Char) (h : '_' ∉ l) :
    splitOnUnderscore l = [l] := by
  induction l with
  | nil => rfl
  | cons c cs ih =>
    have hc : ¬(c = '_') := fun e => h (by rw [e]; exact List.mem_cons_self _ _)
    have h2 : splitOnUnderscore cs = [cs] :=
      ih (fun hm => h (List.mem_cons_of_mem _ hm))
    simp [splitOnUnderscore, hc, h2]

end QuickProto

namespace QuickProto

/-! ### Identifier-converter lemmas -/

theorem camel_eq_title (l : List Char) (h : '_' ∉ l) :
    ((splitOnUnderscore l).map pyTitle).flatten = pyTitle l := by
  rw [splitOnUnderscore_eq l h]
  simp

/-- The full identifier conversion (camel case plus the `Id`-to-`ID` suffix
rule) is idempotent on underscore-free input. -/
theorem goNameList_idem (l : List Char) (h : '_' ∉ l) :
    goNameList (goNameList l) = goNameList l := by
  have htid : titleAux false (titleAux false l) = titleAux false l := titleAux_idem l false
  have hsplit := camel_eq_title l h
  by_cases hs : List.isSuffixOf idSuffix (pyTitle l) = true
  · have hsuffix : idSuffix <:+ pyTitle l := List.isSuffixOf_iff_suffix.mp hs
    obtain ⟨W, hW⟩ := hsuffix
    have hlen : (W ++ idSuffix).length - 2 = W.length := by simp [idSuffix]
    have h1 : goNameList l = W ++ ("ID".data) := by
      simp only [goNameList]
      rw [hsplit, if_pos hs, ← hW, hlen, List.take_left]
    have htW : titleAux false (W ++ idSuffix) = W ++ idSuffix := by
      rw [hW]; exact htid
    have happ := titleAux_append W idSuffix false
    have hparts := List.append_inj (happ.symm.trans htW) (titleAux_length W false)
    have hW1 : titleAux false W = W := hparts.1
    have hW2 : titleAux (flagAfter false W) idSuffix = idSuffix := hparts.2
    have hf : flagAfter false W = false := by
      cases hff : flagAfter false W
      · rfl
      · rw [hff] at hW2
        exact absurd hW2 (by decide)
    have h2 : titleAux false (W ++ ("ID".data)) = W ++ idSuffix := by
      rw [titleAux_append, hf, hW1]
      exact congrArg (fun x => W ++ x) (by decide : titleAux false ("ID".data) = idSuffix)
    have h3 : '_' ∉ W ++ ("ID".data) := by
      intro hm
      rcases List.mem_append.mp hm with hm1 | hm2
      · have hmem : '_' ∈ pyTitle l := by
          rw [← hW]
          exact List.mem_append_left idSuffix hm1
        exact underscore_not_titleAux l h false hmem
      · revert hm2; decide
    rw [h1]
    simp only [goNameList]
    rw [camel_eq_title _ h3]
    have hpt : pyTitle (W ++ ("ID".data)) = W ++ idSuffix := h2
    rw [hpt, if_pos (List.isSuffixOf_iff_suffix.mpr ⟨W, rfl⟩), hlen, List.take_left]
  · have h1 : goNameList l = pyTitle l := by
      simp only [goNameList]
      rw [hsplit, if_neg hs]
    rw [h1]
    simp only [goNameList]
    have h3 : '_' ∉ pyTitle l := underscore_not_titleAux l h false
    rw [camel_eq_title _ h3]
    have hpt : pyTitle (pyTitle l) = pyTitle l := htid
    rw [hpt, if_neg hs]

/-- Claim C1: identifier conversion is idempotent on non-empty
underscore-free input (applying the conversion to an already-converted name
returns it unchanged), and `to_camel_case` plus the suffix rule sends
`"user_id"` to `"UserID"`, not `"UserId"`. -/
theorem claim_C1 (s : String) (h1 : s ≠ "") (h2 : '_' ∉ s.data) :
    goFieldNameOf (goFieldNameOf s) = goFieldNameOf s ∧
    goFieldNameOf ("user_id") = "UserID" ∧ goFieldNameOf ("user_id") ≠ "UserId" := by
  refine ⟨?_, by decide, by decide⟩
  unfold goFieldNameOf
  exact congrArg String.mk (goNameList_idem s.data h2)

theorem claim_C1_witness :
    ("UserName" : String) ≠ "" ∧ '_' ∉ ("UserName" : String).data ∧
    goFieldNameOf (goFieldNameOf ("UserName")) = goFieldNameOf ("UserName") :=
  ⟨by decide, by decide, (claim_C1 ("UserName") (by decide) (by decide)).1⟩

/-- Claim C2: the type mapper is a pure total function: table keys map to
the fixed table value (`double ↦ float64`, `bytes ↦ []byte`), and any name
absent from the table is returned unchanged. -/
theorem claim_C2 (s v : String) :
    map_type ("double") = "float64" ∧ map_type ("bytes") = "[]byte" ∧
    map_type ("MyMessage") = "MyMessage" ∧
    (List.lookup s type_mapping = some v → map_type s = v) ∧
    (List.lookup s type_mapping = none → map_type s = s) := by
  refine ⟨by decide, by decide, by decide, ?_, ?_⟩
  · intro h; unfold map_type; rw [h]
  · intro h; unfold map_type; rw [h]

theorem claim_C2_witness :
    List.lookup ("double") type_mapping = some ("float64") ∧
    map_type ("double") = "float64" ∧
    List.lookup ("Custom") type_mapping = none ∧ map_type ("Custom") = "Custom" :=
  ⟨by decide, (claim_C2 ("double") ("float64")).2.2.2.1 (by decide), by decide,
   (claim_C2 ("Custom") ("x")).2.2.2.2 (by decide)⟩

/-- Claim C8: the conversion (with formatting disabled) is deterministic:
two runs of `generateGo` on identical input produce identical output. -/
theorem claim_C8 (lines : List String) (pkg out1 out2 : String)
    (h1 : out1 = generateGo lines pkg) (h2 : out2 = generateGo lines pkg) :
    out1 = out2 :=
  h1.trans h2.symm

theorem claim_C8_witness :
    generateGo (["message User \x7b", "\x7d"]) ("models")
      = generateGo (["message User \x7b", "\x7d"]) ("models") :=
  claim_C8 (["message User \x7b", "\x7d"]) ("models") _ _ rfl rfl

end QuickProto

namespace QuickProto

/-! ### Scanner step lemmas -/

theorem msgSearch_nil : regexSearch (blockMatchAt kwMessage) [] = none := by decide

theorem enumSearch_nil : regexSearch (blockMatchAt kwEnum) [] = none := by decide

theorem fieldSearch_nil : regexSearch fieldMatchAt [] = none := by decide

theorem enumFieldSearch_nil : regexSearch enumFieldMatchAt [] = none := by decide

theorem msgSearch_closer : regexSearch (blockMatchAt kwMessage) closerList = none := by decide

theorem enumSearch_closer : regexSearch (blockMatchAt kwEnum) closerList = none := by decide

theorem svcSearch_closer : regexSearch (blockMatchAt kwService) closerList = none := by decide

theorem fieldSearch_closer : regexSearch fieldMatchAt closerList = none := by decide

theorem enumFieldSearch_closer : regexSearch enumFieldMatchAt closerList = none := by decide

theorem stepLine_skip (st : ScanState) (l : String) (h : skipsLine l = true) :
    stepLine st l = st := by
  simp [stepLine, h]

theorem stepLine_eq (st : ScanState) (l : String) (h : skipsLine l = false) :
    stepLine st l = stepCode st (codePartOf l) (commentPartOf l) := by
  simp [stepLine, h]

/-- A message opener line overwrites the mode and appends the struct header
lines (main.py lines 151-158). -/
theorem stepCode_openMsg (st : ScanState) (cp cmt : List Char) (n : String)
    (h : regexSearch (blockMatchAt kwMessage) cp = some n) :
    stepCode st cp cmt =
      { st with mode := Mode.MESSAGE, bodyCode := st.bodyCode ++ messageLines n } := by
  have hcp : ¬(cp = []) := by
    intro e
    rw [e, msgSearch_nil] at h
    exact Option.noConfusion h
  simp only [stepCode, eq_false hcp, if_false, h]

/-- An enum opener line sets mode `ENUM`, records the enum name, sets the
first-value flag and appends the const header (main.py lines 160-170). -/
theorem stepCode_openEnum (st : ScanState) (cp cmt : List Char) (n : String)
    (h1 : regexSearch (blockMatchAt kwMessage) cp = none)
    (h2 : regexSearch (blockMatchAt kwEnum) cp = some n) :
    stepCode st cp cmt =
      { st with mode := Mode.ENUM, currentEnumName := n, isFirstEnumField := true,
                bodyCode := st.bodyCode ++ enumLines n } := by
  have hcp : ¬(cp = []) := by
    intro e
    rw [e, enumSearch_nil] at h2
    exact Option.noConfusion h2
  simp only [stepCode, eq_false hcp, if_false, h1, h2]

/-- A closer line `}` in a non-`NONE` state emits the closing delimiter
(`)` for enums, `}` otherwise) plus a blank line and resets the mode
(main.py lines 183-191). -/
theorem stepCode_closer (st : ScanState) (cp cmt : List Char)
    (hcp : cp = closerList) (hmode : st.mode ≠ Mode.NONE) :
    stepCode st cp cmt =
      { st with mode := Mode.NONE,
                bodyCode := st.bodyCode
                  ++ (if st.mode = Mode.ENUM then [")"] else ["\x7d"]) ++ [""] } := by
  have e1 : ¬(cp = []) := by rw [hcp]; decide
  have e3 : regexSearch (blockMatchAt kwMessage) cp = none := by rw [hcp]; exact msgSearch_closer
  have e4 : regexSearch (blockMatchAt kwEnum) cp = none := by rw [hcp]; exact enumSearch_closer
  have e5 : regexSearch (blockMatchAt kwService) cp = none := by rw [hcp]; exact svcSearch_closer
  simp only [stepCode, eq_false e1, if_false, e3, e4, e5,
    eq_true (⟨hcp, hmode⟩ : cp = closerList ∧ st.mode ≠ Mode.NONE), if_true]

/-- A matched field line in `MESSAGE` mode extends the imports via
`fieldImports` and appends exactly one struct-field line
(main.py lines 194-221). -/
theorem stepCode_field (st : ScanState) (cp cmt : List Char) (rep : Bool) (ty nm : String)
    (hmode : st.mode = Mode.MESSAGE)
    (h1 : regexSearch (blockMatchAt kwMessage) cp = none)
    (h2 : regexSearch (blockMatchAt kwEnum) cp = none)
    (h3 : regexSearch (blockMatchAt kwService) cp = none)
    (h4 : regexSearch fieldMatchAt cp = some (rep, ty, nm)) :
    stepCode st cp cmt =
      { st with imports := fieldImports st.imports ty cmt,
                bodyCode := st.bodyCode ++ [emitFieldLine rep ty nm cmt] } := by
  have hcp : ¬(cp = []) := by
    intro e
    rw [e, fieldSearch_nil] at h4
    exact Option.noConfusion h4
  have hcl : ¬(cp = closerList) := by
    intro e
    rw [e, fieldSearch_closer] at h4
    exact Option.noConfusion h4
  simp only [stepCode, eq_false hcp, if_false, h1, h2, h3, hmode, h4]
  rw [if_neg (fun hand : cp = closerList ∧ Mode.MESSAGE ≠ Mode.NONE => hcl hand.1)]

/-- A matched enum-value line in `ENUM` mode appends the `= iota` line and
clears the flag when it is the first value of the block, and a bare
constant otherwise (main.py lines 224-234). -/
theorem stepCode_enumVal (st : ScanState) (cp cmt : List Char) (nm : String)
    (hmode : st.mode = Mode.ENUM)
    (h1 : regexSearch (blockMatchAt kwMessage) cp = none)
    (h2 : regexSearch (blockMatchAt kwEnum) cp = none)
    (h3 : regexSearch (blockMatchAt kwService) cp = none)
    (h4 : regexSearch enumFieldMatchAt cp = some nm) :
    stepCode st cp cmt =
      if st.isFirstEnumField then
        { st with isFirstEnumField := false,
                  bodyCode := st.bodyCode
                    ++ ["\t" ++ nm ++ " " ++ st.currentEnumName ++ " = iota"] }
      else { st with bodyCode := st.bodyCode ++ ["\t" ++ nm] } := by
  have hcp : ¬(cp = []) := by
    intro e
    rw [e, enumFieldSearch_nil] at h4
    exact Option.noConfusion h4
  have hcl : ¬(cp = closerList) := by
    intro e
    rw [e, enumFieldSearch_closer] at h4
    exact Option.noConfusion h4
  simp only [stepCode, eq_false hcp, if_false, h1, h2, h3, hmode, h4]
  rw [if_neg (fun hand : cp = closerList ∧ Mode.ENUM ≠ Mode.NONE => hcl hand.1)]

/-- Any line whose code part matches no opener, no applicable closer, and
no state-appropriate declaration pattern leaves the state untouched. -/
theorem stepCode_noop (st : ScanState) (cp cmt : List Char)
    (h1 : regexSearch (blockMatchAt kwMessage) cp = none)
    (h2 : regexSearch (blockMatchAt kwEnum) cp = none)
    (h3 : regexSearch (blockMatchAt kwService) cp = none)
    (hcl : ¬(cp = closerList ∧ st.mode ≠ Mode.NONE))
    (h4 : st.mode = Mode.MESSAGE → regexSearch fieldMatchAt cp = none)
    (h5 : st.mode = Mode.ENUM → regexSearch enumFieldMatchAt cp = none)
    (h6 : st.mode = Mode.SERVICE → regexSearch rpcMatchAt cp = none) :
    stepCode st cp cmt = st := by
  by_cases hcp : cp = []
  · simp [stepCode, hcp]
  · simp only [stepCode, eq_false hcp, if_false, h1, h2, h3, eq_false hcl]
    cases hmode : st.mode
    · rfl
    · rw [h4 hmode]
    · rw [h6 hmode]
    · rw [h5 hmode]

end QuickProto

namespace QuickProto

/-! ### Import-set lemmas -/

theorem mem_addImport_self (l : List String) (x : String) : x ∈ addImport l x := by
  unfold addImport
  by_cases h : x ∈ l
  · simpa [h]
  · simp [h]

theorem mem_addImport_of_mem {l : List String} {y : String} (x : String) (h : y ∈ l) :
    y ∈ addImport l x := by
  unfold addImport
  by_cases hx : x ∈ l
  · simpa [hx]
  · simp [hx, h]

theorem addImport_nodup {l : List String} (x : String) (h : l.Nodup) :
    (addImport l x).Nodup := by
  unfold addImport
  by_cases hx : x ∈ l
  · simpa [hx]
  · simp [hx, List.nodup_append, h]

/-! ### Field lines -/

/-- A line that the scanner, while in `MESSAGE` mode, processes as a field
declaration: not skipped, matching none of the three block openers, and
matching `field_regex` (which also rules out the bare `}` closer). -/
def IsFieldLine (l : String) : Prop :=
  skipsLine l = false ∧
  regexSearch (blockMatchAt kwMessage) (codePartOf l) = none ∧
  regexSearch (blockMatchAt kwEnum) (codePartOf l) = none ∧
  regexSearch (blockMatchAt kwService) (codePartOf l) = none ∧
  (regexSearch fieldMatchAt (codePartOf l)).isSome

instance (l : String) : Decidable (IsFieldLine l) := by
  unfold IsFieldLine
  infer_instance

/-- The struct-field line the scanner emits for a field line. -/
def emittedFieldOf (l : String) : String :=
  match regexSearch fieldMatchAt (codePartOf l) with
  | some r => emitFieldLine r.1 r.2.1 r.2.2 (commentPartOf l)
  | none => ""

/-- The import set after processing a field line. -/
def importsAfterField (imps : List String) (l : String) : List String :=
  match regexSearch fieldMatchAt (codePartOf l) with
  | some r => fieldImports imps r.2.1 (commentPartOf l)
  | none => imps

theorem stepLine_fieldLine (st : ScanState) (l : String)
    (hmode : st.mode = Mode.MESSAGE) (h : IsFieldLine l) :
    stepLine st l =
      { st with imports := importsAfterField st.imports l,
                bodyCode := st.bodyCode ++ [emittedFieldOf l] } := by
  obtain ⟨hskip, h1, h2, h3, h4⟩ := h
  obtain ⟨r, hr⟩ := Option.isSome_iff_exists.mp h4
  rw [stepLine_eq st l hskip,
    stepCode_field st _ _ r.1 r.2.1 r.2.2 hmode h1 h2 h3 (by rw [hr])]
  unfold importsAfterField emittedFieldOf
  rw [hr]

theorem scanFrom_fields (fields : List String) : ∀ st : ScanState,
    st.mode = Mode.MESSAGE → (∀ f ∈ fields, IsFieldLine f) →
    scanFrom st fields =
      { st with imports := fields.foldl importsAfterField st.imports,
                bodyCode := st.bodyCode ++ fields.map emittedFieldOf } := by
  induction fields with
  | nil => intro st _ _; simp [scanFrom]
  | cons f fs ih =>
    intro st hmode hall
    have hstep := stepLine_fieldLine st f hmode (hall f (List.mem_cons_self f fs))
    have hrest := ih ({ st with imports := importsAfterField st.imports f,
                                bodyCode := st.bodyCode ++ [emittedFieldOf f] })
      hmode (fun g hg => hall g (List.mem_cons_of_mem f hg))
    calc scanFrom st (f :: fs)
        = scanFrom (stepLine st f) fs := rfl
      _ = scanFrom ({ st with imports := importsAfterField st.imports f,
                              bodyCode := st.bodyCode ++ [emittedFieldOf f] }) fs := by
            rw [hstep]
      _ = { st with imports := (f :: fs).foldl importsAfterField st.imports,
                    bodyCode := st.bodyCode ++ (f :: fs).map emittedFieldOf } := by
            rw [hrest]
            simp [List.append_assoc]

end QuickProto

namespace QuickProto

/-- Claim C3: for a matched field line whose trailing comment contains
"uuid" in any letter case, the emitted Go type is `uuid.UUID`, overriding
the mapped declared type; with the `repeated` qualifier the slice wrapping
is applied after the override, giving `[]uuid.UUID`. -/
theorem claim_C3 (st : ScanState) (l : String) (rep : Bool) (ty nm : String)
    (hmode : st.mode = Mode.MESSAGE)
    (hskip : skipsLine l = false)
    (h1 : regexSearch (blockMatchAt kwMessage) (codePartOf l) = none)
    (h2 : regexSearch (blockMatchAt kwEnum) (codePartOf l) = none)
    (h3 : regexSearch (blockMatchAt kwService) (codePartOf l) = none)
    (h4 : regexSearch fieldMatchAt (codePartOf l) = some (rep, ty, nm))
    (huuid : containsUUID (commentPartOf l) = true) :
    (stepLine st l).bodyCode = st.bodyCode ++
      ["\t" ++ goFieldNameOf nm ++ " " ++ (if rep then "[]uuid.UUID" else "uuid.UUID")
        ++ " `json:\"" ++ nm ++ ",omitempty\"`"] := by
  rw [stepLine_eq st l hskip,
    stepCode_field st _ _ rep ty nm hmode h1 h2 h3 h4]
  show st.bodyCode ++ [emitFieldLine rep ty nm (commentPartOf l)] = _
  unfold emitFieldLine fieldGoType
  rw [huuid]
  cases rep
  · rfl
  · rfl

theorem claim_C3_witness :
    (⟨Mode.MESSAGE, "", false, [importContext], []⟩ : ScanState).mode = Mode.MESSAGE ∧
    containsUUID (commentPartOf ("repeated string ids = 7; // UUID list")) = true ∧
    (stepLine (⟨Mode.MESSAGE, "", false, [importContext], []⟩ : ScanState)
        ("repeated string ids = 7; // UUID list")).bodyCode
      = ["\tIds []uuid.UUID `json:\"ids,omitempty\"`"] :=
  ⟨rfl, by decide,
    claim_C3 (⟨Mode.MESSAGE, "", false, [importContext], []⟩ : ScanState)
      ("repeated string ids = 7; // UUID list") true ("string") ("ids")
      rfl (by decide) (by decide) (by decide) (by decide) (by decide) (by decide)⟩

/-- Claim C10: a field whose declared type maps to `time.Time` and whose
comment carries a UUID hint registers both the `time` and the uuid imports,
although the emitted type is `uuid.UUID` (the time type appears nowhere in
the emitted line). -/
theorem claim_C10 (st : ScanState) (l : String) (rep : Bool) (ty nm : String)
    (hmode : st.mode = Mode.MESSAGE)
    (hskip : skipsLine l = false)
    (h1 : regexSearch (blockMatchAt kwMessage) (codePartOf l) = none)
    (h2 : regexSearch (blockMatchAt kwEnum) (codePartOf l) = none)
    (h3 : regexSearch (blockMatchAt kwService) (codePartOf l) = none)
    (h4 : regexSearch fieldMatchAt (codePartOf l) = some (rep, ty, nm))
    (htime : map_type ty = "time.Time")
    (huuid : containsUUID (commentPartOf l) = true) :
    importTime ∈ (stepLine st l).imports ∧
    importUuid ∈ (stepLine st l).imports ∧
    (stepLine st l).bodyCode = st.bodyCode ++
      ["\t" ++ goFieldNameOf nm ++ " " ++ (if rep then "[]uuid.UUID" else "uuid.UUID")
        ++ " `json:\"" ++ nm ++ ",omitempty\"`"] := by
  rw [stepLine_eq st l hskip,
    stepCode_field st _ _ rep ty nm hmode h1 h2 h3 h4]
  refine ⟨?_, ?_, ?_⟩
  · show importTime ∈ fieldImports st.imports ty (commentPartOf l)
    unfold fieldImports
    rw [htime, huuid]
    simp only [if_pos rfl, if_true]
    exact mem_addImport_of_mem importUuid (mem_addImport_self st.imports importTime)
  · show importUuid ∈ fieldImports st.imports ty (commentPartOf l)
    unfold fieldImports
    rw [htime, huuid]
    simp only [if_pos rfl, if_true]
    exact mem_addImport_self _ importUuid
  · show st.bodyCode ++ [emitFieldLine rep ty nm (commentPartOf l)] = _
    unfold emitFieldLine fieldGoType
    rw [huuid]
    cases rep
    · rfl
    · rfl

theorem claim_C10_witness :
    map_type ("Timestamp") = "time.Time" ∧
    importTime ∈ (stepLine (⟨Mode.MESSAGE, "", false, [importContext], []⟩ : ScanState)
      ("Timestamp created_at = 3; // a uuid really")).imports ∧
    importUuid ∈ (stepLine (⟨Mode.MESSAGE, "", false, [importContext], []⟩ : ScanState)
      ("Timestamp created_at = 3; // a uuid really")).imports ∧
    (stepLine (⟨Mode.MESSAGE, "", false, [importContext], []⟩ : ScanState)
        ("Timestamp created_at = 3; // a uuid really")).bodyCode
      = ["\tCreatedAt uuid.UUID `json:\"created_at,omitempty\"`"] := by
  have h := claim_C10 (⟨Mode.MESSAGE, "", false, [importContext], []⟩ : ScanState)
    ("Timestamp created_at = 3; // a uuid really") false ("Timestamp") ("created_at")
    rfl (by decide) (by decide) (by decide) (by decide) (by decide) (by decide) (by decide)
  exact ⟨by decide, h.1, h.2.1, h.2.2⟩

/-- Claim C9: a line that is blank or comment-only, or whose code part
matches no block opener, no applicable closer and no declaration pattern
for the current state, is a no-op: the scanner state, body buffer and
the set of imports are unchanged (the step is total, so no error occurs). -/
theorem claim_C9 (st : ScanState) (l : String)
    (h : skipsLine l = true ∨ codePartOf l = [] ∨
      (regexSearch (blockMatchAt kwMessage) (codePartOf l) = none ∧
       regexSearch (blockMatchAt kwEnum) (codePartOf l) = none ∧
       regexSearch (blockMatchAt kwService) (codePartOf l) = none ∧
       ¬(codePartOf l = closerList ∧ st.mode ≠ Mode.NONE) ∧
       (st.mode = Mode.MESSAGE → regexSearch fieldMatchAt (codePartOf l) = none) ∧
       (st.mode = Mode.ENUM → regexSearch enumFieldMatchAt (codePartOf l) = none) ∧
       (st.mode = Mode.SERVICE → regexSearch rpcMatchAt (codePartOf l) = none))) :
    stepLine st l = st := by
  by_cases hs : skipsLine l = true
  · exact stepLine_skip st l hs
  · have hs' : skipsLine l = false := by revert hs; cases skipsLine l <;> simp
    rw [stepLine_eq st l hs']
    rcases h with h | h | ⟨h1, h2, h3, h4, h5, h6, h7⟩
    · exact absurd h hs
    · simp [stepCode, h]
    · exact stepCode_noop st _ _ h1 h2 h3 h4 h5 h6 h7

theorem claim_C9_witness :
    codePartOf ("option go_files = 1") ≠ [] ∧
    stepLine initState ("option go_files = 1") = initState :=
  ⟨by decide, claim_C9 initState ("option go_files = 1") (by decide)⟩

end QuickProto

namespace QuickProto

/-! ### Enum-value lines -/

/-- A line that the scanner, while in `ENUM` mode, processes as an enum
value: not skipped, matching no block opener, and matching
`enum_field_regex` (which also rules out the bare `}` closer). -/
def IsEnumValueLine (l : String) : Prop :=
  skipsLine l = false ∧
  regexSearch (blockMatchAt kwMessage) (codePartOf l) = none ∧
  regexSearch (blockMatchAt kwEnum) (codePartOf l) = none ∧
  regexSearch (blockMatchAt kwService) (codePartOf l) = none ∧
  (regexSearch enumFieldMatchAt (codePartOf l)).isSome

instance (l : String) : Decidable (IsEnumValueLine l) := by
  unfold IsEnumValueLine
  infer_instance

/-- The constant name captured from an enum-value line; the numeric tag is
not captured by `enum_field_regex` at all. -/
def enumValNameOf (l : String) : String :=
  match regexSearch enumFieldMatchAt (codePartOf l) with
  | some n => n
  | none => ""

theorem stepLine_enumValLine (st : ScanState) (l : String)
    (hmode : st.mode = Mode.ENUM) (h : IsEnumValueLine l) :
    stepLine st l =
      if st.isFirstEnumField then
        { st with isFirstEnumField := false,
                  bodyCode := st.bodyCode
                    ++ ["\t" ++ enumValNameOf l ++ " " ++ st.currentEnumName ++ " = iota"] }
      else { st with bodyCode := st.bodyCode ++ ["\t" ++ enumValNameOf l] } := by
  obtain ⟨hskip, h1, h2, h3, h4⟩ := h
  obtain ⟨n, hn⟩ := Option.isSome_iff_exists.mp h4
  rw [stepLine_eq st l hskip, stepCode_enumVal st _ _ n hmode h1 h2 h3 hn]
  unfold enumValNameOf
  rw [hn]

theorem scanFrom_enumValsBare (vals : List String) : ∀ st : ScanState,
    st.mode = Mode.ENUM → st.isFirstEnumField = false →
    (∀ v ∈ vals, IsEnumValueLine v) →
    scanFrom st vals =
      { st with bodyCode := st.bodyCode ++ vals.map (fun v => "\t" ++ enumValNameOf v) } := by
  induction vals with
  | nil => intro st _ _ _; simp [scanFrom]
  | cons v vs ih =>
    intro st hmode hflag hall
    have hstep := stepLine_enumValLine st v hmode (hall v (List.mem_cons_self v vs))
    rw [if_neg (show ¬(st.isFirstEnumField = true) by rw [hflag]; simp)] at hstep
    have hrest := ih ({ st with bodyCode := st.bodyCode ++ ["\t" ++ enumValNameOf v] })
      hmode hflag (fun g hg => hall g (List.mem_cons_of_mem v hg))
    calc scanFrom st (v :: vs)
        = scanFrom (stepLine st v) vs := rfl
      _ = scanFrom ({ st with bodyCode := st.bodyCode ++ ["\t" ++ enumValNameOf v] }) vs := by
            rw [hstep]
      _ = { st with bodyCode := st.bodyCode ++ (v :: vs).map (fun v => "\t" ++ enumValNameOf v) } := by
            rw [hrest]
            simp [List.append_assoc]

/-- The constant lines emitted for the values of one enum block: the first
carries the explicit `<EnumType> = iota` initializer, all later ones are
bare names. -/
def enumConstLines (enumName : String) : List String → List String
  | [] => []
  | v :: vs =>
    ("\t" ++ enumValNameOf v ++ " " ++ enumName ++ " = iota")
      :: vs.map (fun v => "\t" ++ enumValNameOf v)

/-- Claim C5: in an enum block the first matched enum-value line is emitted
as `<Name> <EnumType> = iota` and every later one as a bare constant name;
the emission depends only on the captured constant names (the numeric tags
are not captured by `enum_field_regex`), so source tag values are
discarded. -/
theorem claim_C5 (st : ScanState) (opener : String) (enumName : String) (vals : List String)
    (hop1 : skipsLine opener = false)
    (hop2 : regexSearch (blockMatchAt kwMessage) (codePartOf opener) = none)
    (hop3 : regexSearch (blockMatchAt kwEnum) (codePartOf opener) = some enumName)
    (hv : ∀ v ∈ vals, IsEnumValueLine v) :
    (scanFrom st (opener :: vals)).bodyCode
      = st.bodyCode ++ enumLines enumName ++ enumConstLines enumName vals := by
  have hstep : stepLine st opener =
      { st with mode := Mode.ENUM, currentEnumName := enumName, isFirstEnumField := true,
                bodyCode := st.bodyCode ++ enumLines enumName } := by
    rw [stepLine_eq st opener hop1, stepCode_openEnum st _ _ enumName hop2 hop3]
  have hrun : scanFrom st (opener :: vals) = scanFrom
      ({ st with mode := Mode.ENUM, currentEnumName := enumName, isFirstEnumField := true,
                 bodyCode := st.bodyCode ++ enumLines enumName }) vals := by
    show scanFrom (stepLine st opener) vals = _
    rw [hstep]
  rw [hrun]
  cases vals with
  | nil => simp [scanFrom, enumConstLines]
  | cons v vs =>
    have hv1 := hv v (List.mem_cons_self v vs)
    have hstep2 := stepLine_enumValLine
      ({ st with mode := Mode.ENUM, currentEnumName := enumName, isFirstEnumField := true,
                 bodyCode := st.bodyCode ++ enumLines enumName }) v rfl hv1
    simp only [if_pos rfl, if_true] at hstep2
    have hrest := scanFrom_enumValsBare vs
      ({ st with mode := Mode.ENUM, currentEnumName := enumName, isFirstEnumField := false,
                 bodyCode := (st.bodyCode ++ enumLines enumName)
                   ++ ["\t" ++ enumValNameOf v ++ " " ++ enumName ++ " = iota"] })
      rfl rfl (fun g hg => hv g (List.mem_cons_of_mem v hg))
    calc (scanFrom ({ st with mode := Mode.ENUM, currentEnumName := enumName,
                              isFirstEnumField := true,
                              bodyCode := st.bodyCode ++ enumLines enumName }) (v :: vs)).bodyCode
        = (scanFrom ({ st with mode := Mode.ENUM, currentEnumName := enumName,
                               isFirstEnumField := false,
                               bodyCode := (st.bodyCode ++ enumLines enumName)
                                 ++ ["\t" ++ enumValNameOf v ++ " " ++ enumName ++ " = iota"] })
            vs).bodyCode := by
            show (scanFrom (stepLine _ v) vs).bodyCode = _
            rw [hstep2]
      _ = st.bodyCode ++ enumLines enumName ++ enumConstLines enumName (v :: vs) := by
            rw [hrest]
            simp [enumConstLines, List.append_assoc]

theorem claim_C5_witness :
    (∀ v ∈ (["  ACTIVE = 4;", "  RETIRED = 9;"] : List String), IsEnumValueLine v) ∧
    (scanFrom initState (["enum Status \x7b", "  ACTIVE = 4;", "  RETIRED = 9;"])).bodyCode
      = ["// Status is an enumeration based on byte", "type Status byte", "const (",
         "\tACTIVE Status = iota", "\tRETIRED"] :=
  ⟨by decide,
    claim_C5 initState ("enum Status \x7b") ("Status") (["  ACTIVE = 4;", "  RETIRED = 9;"])
      (by decide) (by decide) (by decide) (by decide)⟩

/-- Claim C6: a well-formed single-level message block (opener, field
declarations, closer) emits exactly one struct-field line per field
declaration, in source order, between the struct header and the closing
brace. -/
theorem claim_C6 (st : ScanState) (opener closer : String) (fields : List String) (nm : String)
    (hop1 : skipsLine opener = false)
    (hop2 : regexSearch (blockMatchAt kwMessage) (codePartOf opener) = some nm)
    (hcl1 : skipsLine closer = false)
    (hcl2 : codePartOf closer = closerList)
    (hf : ∀ f ∈ fields, IsFieldLine f) :
    (scanFrom st (opener :: (fields ++ [closer]))).bodyCode
      = st.bodyCode ++ messageLines nm ++ fields.map emittedFieldOf ++ ["\x7d", ""]
    ∧ (scanFrom st (opener :: (fields ++ [closer]))).mode = Mode.NONE := by
  have hstep : stepLine st opener =
      { st with mode := Mode.MESSAGE, bodyCode := st.bodyCode ++ messageLines nm } := by
    rw [stepLine_eq st opener hop1, stepCode_openMsg st _ _ nm hop2]
  have hfields := scanFrom_fields fields
    ({ st with mode := Mode.MESSAGE, bodyCode := st.bodyCode ++ messageLines nm }) rfl hf
  have hsplit : scanFrom st (opener :: (fields ++ [closer]))
      = stepLine (scanFrom (stepLine st opener) fields) closer := by
    show scanFrom (stepLine st opener) (fields ++ [closer]) = _
    unfold scanFrom
    rw [List.foldl_append]
    rfl
  rw [hsplit, hstep, hfields]
  rw [stepLine_eq _ closer hcl1, stepCode_closer _ _ _ hcl2 (by simp)]
  constructor
  · show ((st.bodyCode ++ messageLines nm) ++ fields.map emittedFieldOf)
        ++ (if Mode.MESSAGE = Mode.ENUM then [")"] else ["\x7d"]) ++ [""] = _
    simp [List.append_assoc]
  · rfl

theorem claim_C6_witness :
    (∀ f ∈ (["  int32 a = 1;", "  repeated bytes b = 2; // UUID"] : List String), IsFieldLine f) ∧
    (scanFrom initState
        (("message Pair \x7b") :: ((["  int32 a = 1;", "  repeated bytes b = 2; // UUID"])
          ++ [("\x7d")]))).bodyCode
      = ["// Pair represents the Pair model from proto", "type Pair struct \x7b",
         "\tA int32 `json:\"a,omitempty\"`", "\tB []uuid.UUID `json:\"b,omitempty\"`",
         "\x7d", ""] ∧
    (scanFrom initState
        (("message Pair \x7b") :: ((["  int32 a = 1;", "  repeated bytes b = 2; // UUID"])
          ++ [("\x7d")]))).mode
      = Mode.NONE := by
  have h := claim_C6 initState ("message Pair \x7b") ("\x7d")
    (["  int32 a = 1;", "  repeated bytes b = 2; // UUID"]) ("Pair")
    (by decide) (by decide) (by decide) (by decide) (by decide)
  refine ⟨by decide, ?_, h.2⟩
  rw [h.1]
  decide

end QuickProto

namespace QuickProto

/-! ### Sorting lemmas for the import block -/

theorem lexLe_total (a : List Char) : ∀ b, lexLe a b = true ∨ lexLe b a = true := by
  induction a with
  | nil => intro b; exact Or.inl rfl
  | cons x xs ih =>
    intro b
    cases b with
    | nil => exact Or.inr rfl
    | cons y ys =>
      rcases Nat.lt_trichotomy x.toNat y.toNat with h | h | h
      · left; simp [lexLe, h]
      · rcases ih ys with h2 | h2
        · left; simp [lexLe, h, h2]
        · right; simp [lexLe, h.symm, h2]
      · right; simp [lexLe, h]

theorem lexLe_trans {a b c : List Char} :
    lexLe a b = true → lexLe b c = true → lexLe a c = true := by
  induction a generalizing b c with
  | nil => intro _ _; rfl
  | cons x xs ih =>
    intro h1 h2
    cases b with
    | nil => simp [lexLe] at h1
    | cons y ys =>
      cases c with
      | nil => simp [lexLe] at h2
      | cons z zs =>
        simp only [lexLe] at h1 h2 ⊢
        split_ifs at h1 h2 ⊢ <;> first | rfl | omega | exact ih h1 h2 | simp_all

theorem strLe_total (a b : String) : strLe a b = true ∨ strLe b a = true :=
  lexLe_total a.data b.data

theorem strLe_trans {a b c : String} (h1 : strLe a b = true) (h2 : strLe b c = true) :
    strLe a c = true :=
  lexLe_trans h1 h2

theorem insertImp_perm (x : String) (l : List String) :
    List.Perm (insertImp x l) (x :: l) := by
  induction l with
  | nil => exact List.Perm.refl _
  | cons y ys ih =>
    unfold insertImp
    by_cases h : strLe x y = true
    · rw [if_pos h]
    · rw [if_neg h]
      exact (ih.cons y).trans (List.Perm.swap x y ys)

theorem sortImports_perm (l : List String) : List.Perm (sortImports l) l := by
  induction l with
  | nil => exact List.Perm.refl _
  | cons x xs ih => exact (insertImp_perm x (sortImports xs)).trans (ih.cons x)

theorem pairwise_insertImp (x : String) (l : List String)
    (h : l.Pairwise (fun a b => strLe a b = true)) :
    (insertImp x l).Pairwise (fun a b => strLe a b = true) := by
  induction l with
  | nil => simp [insertImp]
  | cons y ys ih =>
    rcases List.pairwise_cons.mp h with ⟨hy, hys⟩
    unfold insertImp
    by_cases hxy : strLe x y = true
    · rw [if_pos hxy]
      refine List.pairwise_cons.mpr ⟨?_, h⟩
      intro z hz
      rcases List.mem_cons.mp hz with rfl | hz
      · exact hxy
      · exact strLe_trans hxy (hy z hz)
    · rw [if_neg hxy]
      refine List.pairwise_cons.mpr ⟨?_, ih hys⟩
      intro z hz
      have hz' : z = x ∨ z ∈ ys := by
        have hmem := (insertImp_perm x ys).mem_iff.mp hz
        simpa using hmem
      rcases hz' with rfl | hz'
      · exact (strLe_total z y).resolve_left hxy
      · exact hy z hz'

theorem sortImports_pairwise (l : List String) :
    (sortImports l).Pairwise (fun a b => strLe a b = true) := by
  induction l with
  | nil => simp [sortImports]
  | cons x xs ih => exact pairwise_insertImp x (sortImports xs) ih

/-! ### Import-set invariants over the scan -/

theorem fieldImports_mem {imps : List String} {y : String} (ty : String) (cmt : List Char)
    (h : y ∈ imps) : y ∈ fieldImports imps ty cmt := by
  unfold fieldImports
  by_cases h1 : map_type ty = "time.Time"
  · rw [if_pos h1]
    by_cases h2 : containsUUID cmt = true
    · rw [if_pos h2]
      exact mem_addImport_of_mem _ (mem_addImport_of_mem _ h)
    · rw [if_neg h2]
      exact mem_addImport_of_mem _ h
  · rw [if_neg h1]
    by_cases h2 : containsUUID cmt = true
    · rw [if_pos h2]
      exact mem_addImport_of_mem _ h
    · rw [if_neg h2]
      exact h

theorem fieldImports_nodup {imps : List String} (ty : String) (cmt : List Char)
    (h : imps.Nodup) : (fieldImports imps ty cmt).Nodup := by
  unfold fieldImports
  by_cases h1 : map_type ty = "time.Time"
  · rw [if_pos h1]
    by_cases h2 : containsUUID cmt = true
    · rw [if_pos h2]
      exact addImport_nodup _ (addImport_nodup _ h)
    · rw [if_neg h2]
      exact addImport_nodup _ h
  · rw [if_neg h1]
    by_cases h2 : containsUUID cmt = true
    · rw [if_pos h2]
      exact addImport_nodup _ h
    · rw [if_neg h2]
      exact h

theorem stepCode_imports_cases (st : ScanState) (cp cmt : List Char) :
    (stepCode st cp cmt).imports = st.imports ∨
    ∃ ty, (stepCode st cp cmt).imports = fieldImports st.imports ty cmt := by
  unfold stepCode
  split
  · exact Or.inl rfl
  · split
    · exact Or.inl rfl
    · split
      · exact Or.inl rfl
      · split
        · exact Or.inl rfl
        · split
          · exact Or.inl rfl
          · split
            · split
              · exact Or.inr ⟨_, rfl⟩
              · exact Or.inl rfl
            · split
              · split
                · exact Or.inl rfl
                · exact Or.inl rfl
              · exact Or.inl rfl
            · split
              · exact Or.inl rfl
              · exact Or.inl rfl
            · exact Or.inl rfl

theorem stepLine_imports_cases (st : ScanState) (l : String) :
    (stepLine st l).imports = st.imports ∨
    ∃ ty, (stepLine st l).imports = fieldImports st.imports ty (commentPartOf l) := by
  unfold stepLine
  split
  · exact Or.inl rfl
  · exact stepCode_imports_cases st (codePartOf l) (commentPartOf l)

theorem stepLine_imports_mono {st : ScanState} {y : String} (l : String)
    (h : y ∈ st.imports) : y ∈ (stepLine st l).imports := by
  rcases stepLine_imports_cases st l with he | ⟨ty, he⟩
  · rw [he]; exact h
  · rw [he]; exact fieldImports_mem ty _ h

theorem stepLine_imports_nodup {st : ScanState} (l : String)
    (h : st.imports.Nodup) : (stepLine st l).imports.Nodup := by
  rcases stepLine_imports_cases st l with he | ⟨ty, he⟩
  · rw [he]; exact h
  · rw [he]; exact fieldImports_nodup ty _ h

theorem scanFrom_imports_mono (lines : List String) : ∀ (st : ScanState) (y : String),
    y ∈ st.imports → y ∈ (scanFrom st lines).imports := by
  induction lines with
  | nil => intro st y h; exact h
  | cons l ls ih =>
    intro st y h
    exact ih (stepLine st l) y (stepLine_imports_mono l h)

theorem scanFrom_imports_nodup (lines : List String) : ∀ st : ScanState,
    st.imports.Nodup → (scanFrom st lines).imports.Nodup := by
  induction lines with
  | nil => intro st h; exact h
  | cons l ls ih =>
    intro st h
    exact ih (stepLine st l) (stepLine_imports_nodup l h)

end QuickProto

namespace QuickProto

/-- Claim C7: for every input the output is the package header, a blank
line, the import block (emitted only when the import set is non-empty, and
here always non-empty because it is seeded with `"context"`), a blank line,
then the body buffer verbatim; the import-block entries are sorted
lexicographically. -/
theorem claim_C7 (lines : List String) (pkg : String) :
    importContext ∈ (scanLines lines).imports ∧
    (scanLines lines).imports ≠ [] ∧
    generateGo lines pkg = String.intercalate "\n"
      ((["package " ++ pkg, ""]
        ++ (["import ("] ++ importBlockOf (scanLines lines).imports ++ [")", ""]))
        ++ (scanLines lines).bodyCode) ∧
    ("\t" ++ importContext) ∈ importBlockOf (scanLines lines).imports ∧
    (sortImports (scanLines lines).imports).Pairwise (fun a b => strLe a b = true) := by
  have hmem : importContext ∈ (scanLines lines).imports :=
    scanFrom_imports_mono lines initState importContext (by simp [initState])
  have hne : (scanLines lines).imports ≠ [] := List.ne_nil_of_mem hmem
  refine ⟨hmem, hne, ?_, ?_, sortImports_pairwise _⟩
  · simp only [generateGo]
    rw [if_neg (show ¬((scanLines lines).imports.isEmpty = true) from
      fun he => hne (List.isEmpty_iff.mp he))]
  · exact List.mem_map_of_mem _
      ((sortImports_perm (scanLines lines).imports).mem_iff.mpr hmem)

/-- Claim C4: whenever the scan of the input reaches a field line with a
UUID comment hint while in `MESSAGE` mode (one or more such fields), the
uuid import appears exactly once in the sorted import block, no matter how
many such fields exist. -/
theorem claim_C4 (lines pre suf : List String) (f : String)
    (hsplit : lines = pre ++ f :: suf)
    (hmode : (scanFrom initState pre).mode = Mode.MESSAGE)
    (hf : IsFieldLine f)
    (huuid : containsUUID (commentPartOf f) = true) :
    List.count importUuid (sortImports (scanLines lines).imports) = 1 ∧
    List.count ("\t" ++ importUuid) (importBlockOf (scanLines lines).imports) = 1 := by
  have hstep := stepLine_fieldLine (scanFrom initState pre) f hmode hf
  have hmem1 : importUuid ∈ (stepLine (scanFrom initState pre) f).imports := by
    rw [hstep]
    show importUuid ∈ importsAfterField (scanFrom initState pre).imports f
    unfold importsAfterField
    obtain ⟨hskip, h1, h2, h3, h4⟩ := hf
    obtain ⟨r, hr⟩ := Option.isSome_iff_exists.mp h4
    simp only [hr, fieldImports]
    rw [if_pos huuid]
    exact mem_addImport_self _ _
  have hmem : importUuid ∈ (scanLines lines).imports := by
    rw [hsplit]
    unfold scanLines scanFrom
    rw [List.foldl_append, List.foldl_cons]
    exact scanFrom_imports_mono suf (stepLine (scanFrom initState pre) f) importUuid hmem1
  have hnodup : (scanLines lines).imports.Nodup :=
    scanFrom_imports_nodup lines initState (by simp [initState])
  have hcount : List.count importUuid (sortImports (scanLines lines).imports) = 1 := by
    rw [(sortImports_perm (scanLines lines).imports).count_eq]
    exact List.count_eq_one_of_mem hnodup hmem
  refine ⟨hcount, ?_⟩
  have hinj : Function.Injective (fun i : String => "\t" ++ i) := by
    intro a b hab
    have h2 : ("\t" ++ a).data = ("\t" ++ b).data := congrArg String.data hab
    simp only [String.data_append] at h2
    have h3 : a.data = b.data := by simpa using h2
    exact congrArg String.mk h3
  show List.count ((fun i : String => "\t" ++ i) importUuid)
    ((sortImports (scanLines lines).imports).map (fun i => "\t" ++ i)) = 1
  rw [List.count_map_of_injective _ _ hinj]
  exact hcount

theorem claim_C4_witness :
    (["message User \x7b", "string a = 1; // uuid", "string b = 2; // also UUID", "\x7d"]
      : List String)
      = ["message User \x7b"]
        ++ ("string a = 1; // uuid") :: ["string b = 2; // also UUID", "\x7d"] ∧
    List.count importUuid (sortImports (scanLines (["message User \x7b",
      "string a = 1; // uuid", "string b = 2; // also UUID", "\x7d"])).imports) = 1 ∧
    List.count ("\t" ++ importUuid) (importBlockOf (scanLines (["message User \x7b",
      "string a = 1; // uuid", "string b = 2; // also UUID", "\x7d"])).imports) = 1 := by
  have h := claim_C4
    (["message User \x7b", "string a = 1; // uuid", "string b = 2; // also UUID", "\x7d"])
    (["message User \x7b"]) (["string b = 2; // also UUID", "\x7d"])
    ("string a = 1; // uuid") (by decide) (by decide) (by decide) (by decide)
  exact ⟨by decide, h.1, h.2⟩

end QuickProto
